import Mathlib

/-!
Verification of the Transpormax vehicle-custody-transfer pipeline.

This file gives a shallow embedding, in Lean 4, of the JavaScript core of the
repository (DataHashService, WhatsAppParser, AlertService, and the
transfer-reconciliation helpers of the upload page), and proves or refutes the
frozen specification claims about it.

Modelling conventions, used throughout:
 - JS strings are modelled as Lean String / List Char.  String methods such as
   toUpperCase / toLowerCase are modelled on their ASCII behaviour (the inputs
   of interest are ASCII plus a few accented Latin letters that every relevant
   code path treats uniformly); charCodeAt is modelled by Char.toNat, which
   coincides with UTF-16 code units on the Basic Multilingual Plane.
 - JS 32-bit integer coercion (the `x & x` / `x << 5` idiom) is modelled by
   toInt32, arithmetic being exact Int arithmetic reduced mod 2^32 into
   [-2^31, 2^31).
 - Array.prototype.sort (stable TimSort since ES2019) is modelled by the stable
   List.insertionSort of Mathlib: any two stable sorts agree for a consistent
   comparator.  localeCompare on the key strings is modelled by the
   code-point lexicographic order on String; in every concrete input considered
   here the compared keys are plain ASCII, where the two orders agree, and the
   permutation-invariance theorems only use that the comparator is a total
   preorder that is reflexive on equal strings.
 - `Date` values owned by the hash service are modelled as UTC civil-time
   records; Date.prototype.toISOString is the corresponding formatter.
 - Fallible JS code (try/catch) is modelled by making the would-be-throwing
   input explicit: generateDataHash takes an Option; none stands for an input
   (such as a null `data`) on which `_normalizeData` throws, and the function
   then runs its catch branch.  Date.now() and Math.random() are modelled as
   explicit extra arguments, since they are exactly the sources of
   non-determinism under scrutiny in the fallback-digest claims.
-/

set_option maxRecDepth 4000

/-! ## Basic JS-style character and string helpers -/

/-- JS whitespace class `\s`, restricted to the ASCII range (the parser input
lines are split on newlines, so in practice only spaces and tabs occur). -/
def isJsSpace (c : Char) : Bool :=
  c = ' ' || c = '\t' || c = '\n' || c = '\x0d' || c = '\x0b' || c = '\x0c'

/-- JS word-character class `\w` = [A-Za-z0-9_]. -/
def isJsWordChar (c : Char) : Bool :=
  ('a' ≤ c && c ≤ 'z') || ('A' ≤ c && c ≤ 'Z') || ('0' ≤ c && c ≤ '9') || c = '_'

/-- ASCII digit test, the JS regex class `\d`. -/
def isJsDigit (c : Char) : Bool := '0' ≤ c && c ≤ '9'

/-- String.prototype.trim on a character list: drop JS whitespace at both ends. -/
def trimList (l : List Char) : List Char :=
  ((l.dropWhile isJsSpace).reverse.dropWhile isJsSpace).reverse

/-- String.prototype.trim. -/
def jsTrim (s : String) : String := String.mk (trimList s.data)

/-- String.prototype.toLowerCase, ASCII fragment (Char.toLower lower-cases
exactly the ASCII letters A-Z). -/
def jsToLower (s : String) : String := String.mk (s.data.map Char.toLower)

/-! ## DataHashService (src/unnamed/part_000)

The embedding follows the class method by method; leading underscores of the
private JS methods are kept in the Lean names. -/

namespace DataHashService

/-- UTC civil time, the information content of a JS `Date` (millisecond
precision).  `toISOString` below is the JS formatter for it. -/
structure DateTimeUTC where
  year : Nat
  month : Nat
  day : Nat
  hour : Nat
  minute : Nat
  second : Nat
  ms : Nat
deriving DecidableEq, Repr

/-- Decimal digit character. -/
def decChar (d : Nat) : Char := Char.ofNat (48 + d)

/-- Decimal digits, most significant first, with enough fuel for the
recursion on n / 10 (structural so that the kernel can evaluate it; fuel n
always suffices since a number has no more digits than its own value). -/
def decDigitsAux : Nat → Nat → List Char
  | 0, n => [decChar (n % 10)]
  | fuel + 1, n =>
    if n < 10 then [decChar n] else decDigitsAux fuel (n / 10) ++ [decChar (n % 10)]

/-- Decimal digits of a natural number, most significant first. -/
def decDigits (n : Nat) : List Char := decDigitsAux n n

/-- String.prototype.padStart with a pad character, on character lists. -/
def padStartList (l : List Char) (n : Nat) (c : Char) : List Char :=
  List.replicate (n - l.length) c ++ l

/-- Zero-padded decimal rendering, as used by toISOString fields. -/
def padNum (n : Nat) (width : Nat) : String :=
  String.mk (padStartList (decDigits n) width '0')

/-- Date.prototype.toISOString: YYYY-MM-DDTHH:MM:SS.mmmZ. -/
def toISOString (d : DateTimeUTC) : String :=
  padNum d.year 4 ++ "-" ++ padNum d.month 2 ++ "-" ++ padNum d.day 2 ++ "T" ++
    padNum d.hour 2 ++ ":" ++ padNum d.minute 2 ++ ":" ++ padNum d.second 2 ++
    "." ++ padNum d.ms 3 ++ "Z"

/-- One transfer as handed to the hash service.  `fromDriver` may be null
(candidates without a detected from-driver); `dateTime` may be null. -/
structure TransferIn where
  vehicleId : String
  toDriver : String
  fromDriver : Option String
  dateTime : Option DateTimeUTC
deriving DecidableEq, Repr

/-- The `data` argument of generateDataHash (ProcessingData in the source's
JSDoc).  `department` is absent (undefined) in some call sites, hence Option. -/
structure ProcessingData where
  transfersCount : Int
  transfers : List TransferIn
  filesProcessed : List String
  source : String
  department : Option String
deriving DecidableEq, Repr

/-- DataHashService._normalizeString: trim then lower-case (non-strings become
String(value || ''); null/undefined yield the empty string). -/
def _normalizeString (s : String) : String := jsToLower (jsTrim s)

/-- _normalizeString applied to a possibly-null value. -/
def normalizeOptString : Option String → String
  | none => ""
  | some s => _normalizeString s

/-- A transfer after field-wise normalization (the object built inside
`_normalizeTransfers`'s map). -/
structure NormalizedTransfer where
  vehicleId : String
  toDriver : String
  fromDriver : String
  dateTime : Option String
deriving DecidableEq, Repr

/-- The body of the map in DataHashService._normalizeTransfers. -/
def normTransfer (t : TransferIn) : NormalizedTransfer :=
  { vehicleId := _normalizeString t.vehicleId
    toDriver := _normalizeString t.toDriver
    fromDriver := normalizeOptString t.fromDriver
    dateTime := t.dateTime.map toISOString }

/-- The comparator key of the sort in _normalizeTransfers:
the template literal vehicleId-toDriver-fromDriver.  Note that it does NOT
include dateTime. -/
def sortKey (t : NormalizedTransfer) : String :=
  t.vehicleId ++ "-" ++ t.toDriver ++ "-" ++ t.fromDriver

/-- Lexicographic code-point comparison of character lists — the order in
which both localeCompare on the ASCII key strings and the default
Array.prototype.sort comparator rank the strings occurring here. -/
def listCharLe : List Char → List Char → Bool
  | [], _ => true
  | _ :: _, [] => false
  | x :: xs, y :: ys => if x = y then listCharLe xs ys else decide (x < y)

/-- Lexicographic comparison of strings. -/
def strLe (a b : String) : Bool := listCharLe a.data b.data

/-- The comparator of the sort in _normalizeTransfers (aKey.localeCompare(bKey)
is ≤ 0), modelled by the lexicographic order on the key strings. -/
def transferLe (a b : NormalizedTransfer) : Prop :=
  strLe (sortKey a) (sortKey b) = true

instance : DecidableRel transferLe := fun a b =>
  inferInstanceAs (Decidable (strLe (sortKey a) (sortKey b) = true))

/-- The comparator of the default sort of the file list. -/
def fileLe (a b : String) : Prop := strLe a b = true

instance : DecidableRel fileLe := fun a b =>
  inferInstanceAs (Decidable (strLe a b = true))

/-- DataHashService._normalizeTransfers: normalize each transfer, then sort by
the vehicleId-toDriver-fromDriver key (a stable sort, as in V8). -/
def _normalizeTransfers (ts : List TransferIn) : List NormalizedTransfer :=
  List.insertionSort transferLe (ts.map normTransfer)

/-- DataHashService._normalizeFilesList: normalize, drop empties, default
sort (code-unit lexicographic). -/
def _normalizeFilesList (files : List String) : List String :=
  List.insertionSort fileLe
    (((files.map _normalizeString).filter (fun f => f.length > 0)))

/-- The record produced by DataHashService._normalizeData. -/
structure NormalizedData where
  transfersCount : Int
  transfers : List NormalizedTransfer
  filesProcessed : List String
  source : String
  department : String
deriving DecidableEq, Repr

/-- DataHashService._normalizeData (parseInt on the numeric transfersCount is
the identity on integers). -/
def _normalizeData (d : ProcessingData) : NormalizedData :=
  { transfersCount := d.transfersCount
    transfers := _normalizeTransfers d.transfers
    filesProcessed := _normalizeFilesList d.filesProcessed
    source := _normalizeString d.source
    department := normalizeOptString d.department }

/-- Lower-case hexadecimal digit character. -/
def hexChar (d : Nat) : Char :=
  if d < 10 then Char.ofNat (48 + d) else Char.ofNat (87 + d)

/-- Hexadecimal digits, most significant first, with structural fuel (fuel n
always suffices). -/
def hexDigitsAux : Nat → Nat → List Char
  | 0, n => [hexChar (n % 16)]
  | fuel + 1, n =>
    if n < 16 then [hexChar n] else hexDigitsAux fuel (n / 16) ++ [hexChar (n % 16)]

/-- Hexadecimal digits of a natural number, most significant first, lower-case
letters — Number.prototype.toString(16) for naturals. -/
def hexDigits (n : Nat) : List Char := hexDigitsAux n n

/-- JSON string escaping, the character cases of JSON.stringify. -/
def jsonEscapeChar (c : Char) : String :=
  if c = '"' then "\\\"" else if c = '\\' then "\\\\"
  else if c = '\n' then "\\n" else if c = '\x0d' then "\\r"
  else if c = '\t' then "\\t" else if c = '\x08' then "\\b"
  else if c = '\x0c' then "\\f"
  else if c.toNat < 32 then "\\u" ++ String.mk (padStartList (hexDigits c.toNat) 4 '0')
  else String.singleton c

/-- JSON.stringify of a string value. -/
def jsonStr (s : String) : String :=
  "\"" ++ String.join (s.data.map jsonEscapeChar) ++ "\""

/-- JSON.stringify of one normalized transfer under the key-sorting replacer:
object keys are emitted in sorted order (dateTime, fromDriver, toDriver,
vehicleId), a null dateTime serializing as null. -/
def serializeTransfer (t : NormalizedTransfer) : String :=
  "\x7b\"dateTime\":" ++ (match t.dateTime with
    | some s => jsonStr s
    | none => "null") ++
  ",\"fromDriver\":" ++ jsonStr t.fromDriver ++
  ",\"toDriver\":" ++ jsonStr t.toDriver ++
  ",\"vehicleId\":" ++ jsonStr t.vehicleId ++ "\x7d"

/-- DataHashService._serializeData: JSON.stringify of the normalized record
with the key-sorting replacer, so the top-level keys appear in sorted order
(department, filesProcessed, source, transfers, transfersCount) and with no
added whitespace. -/
def _serializeData (d : NormalizedData) : String :=
  "\x7b\"department\":" ++ jsonStr d.department ++
  ",\"filesProcessed\":[" ++ String.intercalate "," (d.filesProcessed.map jsonStr) ++
  "],\"source\":" ++ jsonStr d.source ++
  ",\"transfers\":[" ++ String.intercalate "," (d.transfers.map serializeTransfer) ++
  "],\"transfersCount\":" ++ toString d.transfersCount ++ "\x7d"

/-- ToInt32: reduce an exact integer into the signed 32-bit range, the effect
of the JS `hash & hash` (and of `<< 5` on its operand/result). -/
def toInt32 (n : Int) : Int := (n + 2147483648) % 4294967296 - 2147483648

/-- One step of the djb2 loop: hash = toInt32(toInt32(hash << 5) + hash + char).
The intermediate sum is exact in JS doubles (well below 2^53). -/
def djb2Step (h : Int) (c : Char) : Int :=
  toInt32 (toInt32 (h * 32) + h + (c.toNat : Int))

/-- The djb2 loop, one step per character, the running hash threaded through
(the match on the step value keeps the accumulator in evaluated form, which
is what the JS loop variable is; it changes nothing about the value). -/
def djb2Aux : Int → List Char → Int
  | h, [] => h
  | h, c :: cs =>
    match djb2Step h c with
    | .ofNat v => djb2Aux (.ofNat v) cs
    | .negSucc v => djb2Aux (.negSucc v) cs

/-- The djb2 hash of _calculateHash, from the seed 5381. -/
def djb2 (s : String) : Int := djb2Aux 5381 s.data

/-- The summation loop of _calculateChecksum (with the same evaluated-
accumulator formulation as the djb2 loop). -/
def checksumAux : Nat → List Char → Nat
  | acc, [] => acc
  | acc, c :: cs =>
    match acc + c.toNat with
    | 0 => checksumAux 0 cs
    | v + 1 => checksumAux (v + 1) cs

/-- DataHashService._calculateChecksum: sum of code units mod 256. -/
def _calculateChecksum (s : String) : Nat := checksumAux 0 s.data % 256

/-- DataHashService._calculateHash: Math.abs(djb2) in hex padded to 8 digits,
followed by the checksum in hex padded to 2 digits. -/
def _calculateHash (s : String) : String :=
  String.mk (padStartList (hexDigits (djb2 s).natAbs) 8 '0' ++
             padStartList (hexDigits (_calculateChecksum s)) 2 '0')

/-- DataHashService._generateFallbackHash: hash of
fallback_${Date.now()}_${randomSuffix}; the clock and the random suffix are
explicit arguments here. -/
def _generateFallbackHash (nowMs : Nat) (rnd : String) : String :=
  _calculateHash ("fallback_" ++ toString nowMs ++ "_" ++ rnd)

/-- DataHashService.generateDataHash.  A `some` input follows the normal
normalize-serialize-hash path; `none` stands for an input on which
`_normalizeData` throws (e.g. a null `data`, whose property read raises a
TypeError), in which case the catch branch returns the fallback digest. -/
def generateDataHash (input : Option ProcessingData) (nowMs : Nat) (rnd : String) :
    String :=
  match input with
  | some d => _calculateHash (_serializeData (_normalizeData d))
  | none => _generateFallbackHash nowMs rnd

/-- Lower-case hexadecimal digit test, the class [0-9a-f]. -/
def isLowerHexDigit (c : Char) : Bool :=
  ('0' ≤ c && c ≤ '9') || ('a' ≤ c && c ≤ 'f')

/-- DataHashService.isValidHash: the regex test /^[0-9a-f]\x7b10\x7d$/. -/
def isValidHash (s : String) : Bool :=
  s.data.length == 10 && s.data.all isLowerHexDigit

end DataHashService

/-! ## WhatsAppParser (src/unnamed/part_005)

The parser's pattern matching is driven by JS regular expressions.  They are
embedded here via a small backtracking matcher whose behaviour on the
constructs actually used (character classes, alternation with left-first
preference, greedy + and ?, greedy and lazy repetition of one-character
items, numbered capture groups) coincides with the ECMAScript semantics:
alternatives are tried left to right, greedy repetitions consume as much as
possible and give back characters one at a time on backtracking, and
RegExp.exec returns the match at the leftmost possible start position.  All
repetition operators in the source patterns apply to one-character items, so
greedy/lazy repetition is modelled by trying the possible run lengths in the
appropriate order. -/

namespace WhatsAppParser

/-- Abstract syntax of the fragment of JS regexes used in the parser.
Classes carry their character predicate; repetition constructors are
restricted to one-character classes, as in the source patterns. -/
inductive RE where
  | eps : RE
  | cls (p : Char → Bool) : RE
  | seq (a b : RE) : RE
  | alt (a b : RE) : RE
  | opt (a : RE) : RE
  | plusCls (p : Char → Bool) : RE
  | starCls (p : Char → Bool) : RE
  | lazyStarCls (p : Char → Bool) : RE
  | group (idx : Nat) (a : RE) : RE

/-- Outcome of a successful match attempt: the text left after the match and
the captured groups (index, captured characters). -/
structure MatchSt where
  rest : List Char
  caps : List (Nat × List Char)
deriving DecidableEq, Repr

/-- First success in a list of alternatives. -/
def firstSome {α β : Type} (f : α → Option β) : List α → Option β
  | [] => none
  | x :: xs => match f x with
    | some r => some r
    | none => firstSome f xs

/-- Suffixes to try for a greedy star over a one-character class: after the
maximal run, then shorter and shorter, down to consuming nothing. -/
def greedySuffixes (p : Char → Bool) (l : List Char) : List (List Char) :=
  let n := (l.takeWhile p).length
  (List.range (n + 1)).map (fun i => l.drop (n - i))

/-- Suffixes for a greedy plus: as for star but at least one character. -/
def plusSuffixes (p : Char → Bool) (l : List Char) : List (List Char) :=
  let n := (l.takeWhile p).length
  (List.range n).map (fun i => l.drop (n - i))

/-- Suffixes for a lazy star: consuming nothing first, then more and more. -/
def lazySuffixes (p : Char → Bool) (l : List Char) : List (List Char) :=
  let n := (l.takeWhile p).length
  (List.range (n + 1)).map (fun i => l.drop i)

/-- The backtracking matcher, in continuation style: mtch re l k caps tries
to match re at the start of l and calls the continuation with the remaining
text; on failure of the continuation the matcher backtracks through its own
alternatives, as a JS regex engine does. -/
def mtch : RE → List Char → (List Char → List (Nat × List Char) → Option MatchSt) →
    List (Nat × List Char) → Option MatchSt
  | .eps, l, k, caps => k l caps
  | .cls p, l, k, caps =>
    match l with
    | [] => none
    | c :: cs => if p c then k cs caps else none
  | .seq a b, l, k, caps => mtch a l (fun l' caps' => mtch b l' k caps') caps
  | .alt a b, l, k, caps =>
    match mtch a l k caps with
    | some r => some r
    | none => mtch b l k caps
  | .opt a, l, k, caps =>
    match mtch a l k caps with
    | some r => some r
    | none => k l caps
  | .plusCls p, l, k, caps => firstSome (fun l' => k l' caps) (plusSuffixes p l)
  | .starCls p, l, k, caps => firstSome (fun l' => k l' caps) (greedySuffixes p l)
  | .lazyStarCls p, l, k, caps => firstSome (fun l' => k l' caps) (lazySuffixes p l)
  | .group i a, l, k, caps =>
    mtch a l (fun l' caps' => k l' ((i, l.take (l.length - l'.length)) :: caps')) caps

/-- Try to match at the very start of l. -/
def matchHere (re : RE) (l : List Char) : Option MatchSt :=
  mtch re l (fun rest caps => some ⟨rest, caps⟩) []

/-- One RegExp.exec result: the matched text (match[0]), the captures, and
the text after the match (from which a /g loop continues). -/
structure ExecMatch where
  matched : List Char
  caps : List (Nat × List Char)
  rest : List Char
deriving DecidableEq, Repr

/-- Scan start positions left to right and return the leftmost match, as
RegExp.exec does. -/
def findFrom (re : RE) : List Char → Option (List Char × MatchSt)
  | [] =>
    match matchHere re [] with
    | some m => some ([], m)
    | none => none
  | c :: t =>
    match matchHere re (c :: t) with
    | some m => some (c :: t, m)
    | none => findFrom re t

/-- RegExp.exec from the start of the given text. -/
def execFrom (re : RE) (l : List Char) : Option ExecMatch :=
  (findFrom re l).map fun pm =>
    ⟨pm.1.take (pm.1.length - pm.2.rest.length), pm.2.caps, pm.2.rest⟩

/-- Captured text of group i (the empty string for an unset group). -/
def capText (m : ExecMatch) (i : Nat) : List Char :=
  match m.caps.find? (fun x => x.1 == i) with
  | some x => x.2
  | none => []

/-- The while-exec /g loop: collect successive matches, each search resuming
after the previous match.  The fuel bounds the number of iterations; every
pattern in the source consumes at least one character per match, so input
length + 1 iterations always suffice. -/
def allMatchesAux (re : RE) : Nat → List Char → List ExecMatch
  | 0, _ => []
  | fuel + 1, l =>
    match execFrom re l with
    | none => []
    | some m => m :: allMatchesAux re fuel m.rest

/-- All matches of a /g pattern over the text. -/
def allMatches (re : RE) (l : List Char) : List ExecMatch :=
  allMatchesAux re (l.length + 1) l

/-! ### The concrete patterns of the parser -/

/-- Lower-casing for the characters the parser handles: ASCII plus the
accented letters appearing in its character classes (the fragment of
String.prototype.toLowerCase the parser can observe). -/
def jsToLowerChar (c : Char) : Char :=
  if c = 'Á' then 'á' else if c = 'É' then 'é' else if c = 'Í' then 'í'
  else if c = 'Ó' then 'ó' else if c = 'Ú' then 'ú' else if c = 'Ñ' then 'ñ'
  else c.toLower

/-- ASCII letter test. -/
def isAsciiLetter (c : Char) : Bool :=
  ('A' ≤ c && c ≤ 'Z') || ('a' ≤ c && c ≤ 'z')

/-- Case-insensitive single character (the effect of the /i flag on a
literal character of the pattern). -/
def ciChar (c : Char) : RE := .cls (fun x => jsToLowerChar x = jsToLowerChar c)

/-- Sequence a list of regexes. -/
def seqList : List RE → RE
  | [] => .eps
  | [r] => r
  | r :: rs => .seq r (seqList rs)

/-- Alternation of a list of regexes, preferring earlier entries. -/
def altList : List RE → RE
  | [] => .cls (fun _ => false)
  | [r] => r
  | r :: rs => .alt r (altList rs)

/-- Case-insensitive literal word. -/
def litCI (s : String) : RE := seqList (s.data.map ciChar)

/-- The class [A-Z0-9\-\s] under /i: letters of either case, digits,
hyphen, whitespace. -/
def vehicleCls (c : Char) : Bool :=
  isAsciiLetter c || isJsDigit c || c = '-' || isJsSpace c

/-- The accented letters occurring in the driver-name class. -/
def accentedChars : List Char := ['Á', 'É', 'Í', 'Ó', 'Ú', 'á', 'é', 'í', 'ó', 'ú', 'Ñ', 'ñ']

/-- The class [A-Za-zÁÉÍÓÚáéíóúÑñ\s] (with /i). -/
def nameCls (c : Char) : Bool :=
  isAsciiLetter c || accentedChars.contains c || isJsSpace c

/-- The regex `.` (any character but a line terminator). -/
def dotCls (c : Char) : Bool := !(c = '\n' || c = '\x0d')

/-- One or more whitespace characters, `\s+`. -/
def sp1 : RE := .plusCls isJsSpace

/-- The alternation (?:carro|vehículo|auto|taxi). -/
def vehWord : RE := altList [litCI "carro", litCI "vehículo", litCI "auto", litCI "taxi"]

/-- The optional (?:el\s+)?. -/
def optEl : RE := .opt (.seq (litCI "el") sp1)

/-- Pattern 0: "le paso el carro X a Y". -/
def transferPattern0 : RE :=
  seqList [altList [seqList [litCI "le", sp1, litCI "paso"], litCI "paso",
                    litCI "entrego", litCI "doy"],
           sp1, optEl, vehWord, sp1, .group 1 (.plusCls vehicleCls),
           sp1, litCI "a", sp1, .group 2 (.plusCls nameCls)]

/-- Pattern 1: "el carro X se lo paso a Y". -/
def transferPattern1 : RE :=
  seqList [optEl, vehWord, sp1, .group 1 (.plusCls vehicleCls), sp1,
           litCI "se", sp1, litCI "lo", sp1,
           altList [litCI "paso", litCI "entrego", litCI "doy"],
           sp1, litCI "a", sp1, .group 2 (.plusCls nameCls)]

/-- Pattern 2: "Y recibe el carro X" (note the swapped roles of the two
capture groups relative to the other patterns). -/
def transferPattern2 : RE :=
  seqList [.group 1 (.plusCls nameCls), sp1,
           altList [litCI "recibe", litCI "toma", litCI "agarra"],
           sp1, optEl, vehWord, sp1, .group 2 (.plusCls vehicleCls)]

/-- Pattern 3: "transferir carro X a Y". -/
def transferPattern3 : RE :=
  seqList [altList [litCI "transferir", litCI "transferencia"],
           sp1, optEl, vehWord, sp1, .group 1 (.plusCls vehicleCls),
           sp1, litCI "a", sp1, .group 2 (.plusCls nameCls)]

/-- Pattern 4: "X deja el carro V ... Y lo toma", with a lazy gap. -/
def transferPattern4 : RE :=
  seqList [.group 1 (.plusCls nameCls), sp1,
           altList [litCI "deja", litCI "entrega"],
           sp1, optEl, vehWord, sp1, .group 2 (.plusCls vehicleCls),
           .lazyStarCls dotCls, .group 3 (.plusCls nameCls), sp1,
           altList [seqList [litCI "lo", sp1, litCI "toma"],
                    seqList [litCI "lo", sp1, litCI "recibe"],
                    seqList [litCI "lo", sp1, litCI "agarra"]]]

/-- Pattern 5: "carro X para Y". -/
def transferPattern5 : RE :=
  seqList [vehWord, sp1, .group 1 (.plusCls vehicleCls), sp1, litCI "para",
           sp1, .group 2 (.plusCls nameCls)]

/-- this.transferPatterns, in source order. -/
def transferPatterns : List RE :=
  [transferPattern0, transferPattern1, transferPattern2,
   transferPattern3, transferPattern4, transferPattern5]

/-- `\d{1,2}`. -/
def d12 : RE := .seq (.cls isJsDigit) (.opt (.cls isJsDigit))

/-- A single literal character class. -/
def chLit (c : Char) : RE := .cls (fun x => x = c)

/-- Date pattern 0: (\d{1,2}/\d{1,2}/\d{4}),?\s*(\d{1,2}:\d{2}). -/
def dateTimePattern0 : RE :=
  seqList [.group 1 (seqList [d12, chLit '/', d12, chLit '/',
                              .cls isJsDigit, .cls isJsDigit, .cls isJsDigit, .cls isJsDigit]),
           .opt (chLit ','), .starCls isJsSpace,
           .group 2 (seqList [d12, chLit ':', .cls isJsDigit, .cls isJsDigit])]

/-- Date pattern 1: (\d{1,2}/\d{1,2}/\d{2}),?\s*(\d{1,2}:\d{2}). -/
def dateTimePattern1 : RE :=
  seqList [.group 1 (seqList [d12, chLit '/', d12, chLit '/',
                              .cls isJsDigit, .cls isJsDigit]),
           .opt (chLit ','), .starCls isJsSpace,
           .group 2 (seqList [d12, chLit ':', .cls isJsDigit, .cls isJsDigit])]

/-- Date pattern 2: \[(\d{1,2}/\d{1,2}/\d{2})\s+(\d{1,2}:\d{2}:\d{2})\]. -/
def dateTimePattern2 : RE :=
  seqList [chLit '[',
           .group 1 (seqList [d12, chLit '/', d12, chLit '/',
                              .cls isJsDigit, .cls isJsDigit]),
           sp1,
           .group 2 (seqList [d12, chLit ':', .cls isJsDigit, .cls isJsDigit,
                              chLit ':', .cls isJsDigit, .cls isJsDigit]),
           chLit ']']

/-- this.dateTimePatterns, in source order. -/
def dateTimePatterns : List RE := [dateTimePattern0, dateTimePattern1, dateTimePattern2]

/-! ### Token cleaning -/

/-- The global replacement of \s+ by a single space (prevSpace tracks whether
the current character extends a whitespace run). -/
def collapseWsGo (prevSpace : Bool) : List Char → List Char
  | [] => []
  | c :: cs =>
    if isJsSpace c then
      if prevSpace then collapseWsGo true cs else ' ' :: collapseWsGo true cs
    else c :: collapseWsGo false cs

/-- replace(/\s+/g, ' '). -/
def collapseWs (l : List Char) : List Char := collapseWsGo false l

/-- ASCII upper-casing of one character (String.prototype.toUpperCase on the
alphabet the vehicle-id pipeline keeps; accented letters are stripped by the
following filter under either semantics). -/
def jsToUpperChar (c : Char) : Char :=
  if 'a' ≤ c && c ≤ 'z' then Char.ofNat (c.toNat - 32) else c

/-- The characters kept by replace(/[^\w\s\-]/g, ''). -/
def keepVehChar (c : Char) : Bool := isJsWordChar c || isJsSpace c || c = '-'

/-- WhatsAppParser.cleanVehicleId: falsy guard, trim, upper-case, collapse
whitespace, strip characters outside \w, \s and hyphen, trim. -/
def cleanVehicleId (l : List Char) : List Char :=
  if l = [] then []
  else trimList ((collapseWs ((trimList l).map jsToUpperChar)).filter keepVehChar)

/-- The replacement of /^\s*-\s*/ by ' ' (the first clean-name pattern):
an optional leading whitespace run, a hyphen and following whitespace are
replaced — note, by a space, not removed.  Without a leading hyphen the
pattern does not match and the text is unchanged. -/
def replaceLeadingDash (l : List Char) : List Char :=
  match l.dropWhile isJsSpace with
  | '-' :: rest => ' ' :: rest.dropWhile isJsSpace
  | _ => l

/-- The replacement of /\s*:.*$/ by ' ' (the second clean-name pattern): at
the leftmost position where optional whitespace is followed by a colon,
everything to the end of the string becomes a single space. -/
def replaceColonSuffix (l : List Char) : List Char :=
  match l.findIdx? (fun c => c = ':') with
  | none => l
  | some i =>
    let pre := l.take i
    (pre.take (pre.length - (pre.reverse.takeWhile isJsSpace).length)) ++ [' ']

/-- The replacement of /\b\w/g by the upper-cased character: a word character
at the start or after a non-word character is capitalized. -/
def capitalizeWordsGo (prevWord : Bool) : List Char → List Char
  | [] => []
  | c :: cs =>
    (if isJsWordChar c && !prevWord then jsToUpperChar c else c) ::
      capitalizeWordsGo (isJsWordChar c) cs

/-- WhatsAppParser.cleanDriverName: falsy guard, trim, the three clean-name
replacements in order, then trim, collapse whitespace, lower-case, and
capitalize word starts. -/
def cleanDriverName (l : List Char) : List Char :=
  if l = [] then []
  else
    capitalizeWordsGo false
      ((collapseWs (trimList (collapseWs (replaceColonSuffix (replaceLeadingDash (trimList l)))))).map jsToLowerChar)

/-! ### Candidates and confidence -/

/-- Substring test, String.prototype.includes on character lists. -/
def containsSub (hay needle : List Char) : Bool :=
  (List.range (hay.length + 1)).any (fun i => needle.isPrefixOf (hay.drop i))

/-- WhatsAppParser.calculateConfidence, in exact hundredths: every confidence
literal of the source (0.9, 0.85, 0.8, 0.75, 0.7, the 0.05 bonus and the 1.0
cap) is a multiple of 0.01, so the computation is carried out on those decimal
values scaled by 100 — 95 here is the source's 0.95.  (IEEE rounding of the JS
double sums deviates from the exact decimal value by less than 1e-15 and never
crosses any comparison made by the specification.) -/
def calculateConfidence (matchText : List Char) (patternIndex : Nat) : Nat :=
  let patternConfidence : List Nat := [90, 85, 80, 90, 75, 70]
  let confidence := (patternConfidence.get? patternIndex).getD 70
  let lower := matchText.map jsToLowerChar
  let keyWords : List (List Char) :=
    ["transferir".data, "entrego".data, "paso".data, "recibe".data]
  let keyWordCount := (keyWords.filter (fun w => containsSub lower w)).length
  min (confidence + keyWordCount * 5) 100

/-- A transfer candidate as pushed by findTransferPatterns (confidence in
hundredths, see calculateConfidence). -/
structure Candidate where
  vehicleId : List Char
  fromDriver : Option (List Char)
  toDriver : List Char
  patternUsed : Nat
  confidence : Nat
deriving DecidableEq, Repr

/-- The switch of findTransferPatterns: role assignment of the capture
groups is per pattern index; the candidate is pushed only when both the
cleaned vehicle id and the cleaned to-driver are non-empty (JS truthiness of
the two strings). -/
def mkCandidate (patternIndex : Nat) (m : ExecMatch) : Option Candidate :=
  match patternIndex with
  | 0 | 1 | 3 | 5 =>
    let vehicleId := cleanVehicleId (capText m 1)
    let toDriver := cleanDriverName (capText m 2)
    if vehicleId ≠ [] && toDriver ≠ [] then
      some ⟨vehicleId, none, toDriver, patternIndex,
            calculateConfidence m.matched patternIndex⟩
    else none
  | 2 =>
    let toDriver := cleanDriverName (capText m 1)
    let vehicleId := cleanVehicleId (capText m 2)
    if vehicleId ≠ [] && toDriver ≠ [] then
      some ⟨vehicleId, none, toDriver, 2, calculateConfidence m.matched 2⟩
    else none
  | 4 =>
    let fromDriver := cleanDriverName (capText m 1)
    let vehicleId := cleanVehicleId (capText m 2)
    let toDriver := cleanDriverName (capText m 3)
    if vehicleId ≠ [] && toDriver ≠ [] then
      some ⟨vehicleId, (if fromDriver = [] then none else some fromDriver),
            toDriver, 4, calculateConfidence m.matched 4⟩
    else none
  | _ => none

/-- WhatsAppParser.findTransferPatterns: every pattern is run in /g mode over
the line, in order, and each match yields at most one candidate. -/
def findTransferPatterns (text : List Char) : List Candidate :=
  transferPatterns.enum.flatMap fun p =>
    (allMatches p.2 text).filterMap (mkCandidate p.1)

/-! ### Temporal extraction -/

/-- The information content of the Date built by extractDateTime (seconds are
always zero there since the time string is truncated to HH:MM). -/
structure JsDate where
  year : Nat
  month : Nat
  day : Nat
  hour : Nat
  minute : Nat
deriving DecidableEq, Repr

/-- Numeric parse of a non-empty digit string. -/
def parseNatList (l : List Char) : Option Nat :=
  if l ≠ [] && l.all isJsDigit then
    some (l.foldl (fun a c => a * 10 + (c.toNat - 48)) 0)
  else none

/-- Gregorian leap year. -/
def isLeapYear (y : Nat) : Bool := (y % 4 == 0 && y % 100 != 0) || y % 400 == 0

/-- Days in a month. -/
def daysInMonth (y m : Nat) : Nat :=
  if m = 2 then (if isLeapYear y then 29 else 28)
  else if m = 4 || m = 6 || m = 9 || m = 11 then 30
  else 31

/-- The JS Date constructor on the strings Y-M-DTH:MM:SS assembled by
extractDateTime: parse the components and range-check them; a component out
of range (month > 12, day beyond the month length, etc.) yields an Invalid
Date, i.e. none. -/
def jsNewDateISO (s : List Char) : Option JsDate :=
  match s.splitOn 'T' with
  | [d, t] =>
    match d.splitOn '-', t.splitOn ':' with
    | [ys, ms, ds], [hs, mins, ss] => do
      let y ← parseNatList ys
      let mo ← parseNatList ms
      let da ← parseNatList ds
      let h ← parseNatList hs
      let mi ← parseNatList mins
      let se ← parseNatList ss
      if 1 ≤ mo && mo ≤ 12 && 1 ≤ da && da ≤ daysInMonth y mo &&
         h ≤ 23 && mi ≤ 59 && se ≤ 59 then
        some ⟨y, mo, da, h, mi⟩
      else none
    | _, _ => none
  | _ => none

/-- The body of extractDateTime's if (match) block: reassemble the date as
YYYY-MM-DD (two-digit years become 20YY), truncate seconds, and build the
Date.  None models an Invalid Date (isNaN of getTime). -/
def processDateMatch (m : ExecMatch) : Option JsDate :=
  let dateStr := capText m 1
  let timeStr := capText m 2
  let dateStr2 :=
    if dateStr.contains '/' then
      match dateStr.splitOn '/' with
      | [p0, p1, p2] =>
        let p2n := if p2.length = 2 then '2' :: '0' :: p2 else p2
        p2n ++ '-' :: (DataHashService.padStartList p1 2 '0') ++
          '-' :: (DataHashService.padStartList p0 2 '0')
      | _ => dateStr
    else dateStr
  let timeStr2 := if (timeStr.splitOn ':').length = 3 then timeStr.take 5 else timeStr
  jsNewDateISO (dateStr2 ++ 'T' :: (timeStr2 ++ [':', '0', '0']))

/-- The pattern loop of WhatsAppParser.extractDateTime: once a pattern's exec
matches, the function returns the processed result for that match — an
invalid date returns null at once, without consulting the remaining
patterns. -/
def extractDateTimeAux : List RE → List Char → Option JsDate
  | [], _ => none
  | p :: ps, text =>
    match execFrom p text with
    | some m => processDateMatch m
    | none => extractDateTimeAux ps text

/-- WhatsAppParser.extractDateTime. -/
def extractDateTime (text : List Char) : Option JsDate :=
  extractDateTimeAux dateTimePatterns text

/-- Modelled from the spec (§4.2 and claim C4): the variant of the extraction
loop in which a layout whose matched substring yields an invalid calendar
date is rejected and extraction falls through to the remaining layouts.  The
source's extractDateTime instead returns null at once in that case; this
definition exists to state that divergence. -/
def extractDateTimeSpecAux : List RE → List Char → Option JsDate
  | [], _ => none
  | p :: ps, text =>
    match execFrom p text with
    | some m =>
      match processDateMatch m with
      | some d => some d
      | none => extractDateTimeSpecAux ps text
    | none => extractDateTimeSpecAux ps text

/-- The claim's fall-through extractor over the source's pattern list. -/
def extractDateTimeSpec (text : List Char) : Option JsDate :=
  extractDateTimeSpecAux dateTimePatterns text

/-! ### Deduplication -/

/-- A parsed transfer as deduplicateTransfers sees it: the cleaned tokens
plus the extracted timestamp in epoch milliseconds (Date.prototype.getTime);
none models a null dateTime. -/
structure TransferRec where
  vehicleId : String
  toDriver : String
  fromDriver : Option String
  dateTime : Option Int
deriving DecidableEq, Repr

/-- The template-literal deduplication key
vehicleId-toDriver-(getTime() || 'no-date').  A missing dateTime and an
epoch-0 dateTime both produce the sentinel, since 0 is falsy. -/
def dedupKey (t : TransferRec) : String :=
  t.vehicleId ++ "-" ++ t.toDriver ++ "-" ++
    (match t.dateTime with
     | some ms => if ms = 0 then "no-date" else toString ms
     | none => "no-date")

/-- The filter of deduplicateTransfers, with the mutated seen-set made
explicit. -/
def deduplicateTransfersAux (seen : List String) : List TransferRec → List TransferRec
  | [] => []
  | t :: ts =>
    if seen.contains (dedupKey t) then deduplicateTransfersAux seen ts
    else t :: deduplicateTransfersAux (dedupKey t :: seen) ts

/-- WhatsAppParser.deduplicateTransfers. -/
def deduplicateTransfers (l : List TransferRec) : List TransferRec :=
  deduplicateTransfersAux [] l

end WhatsAppParser

/-! ## Reconciliation of candidates against the registry
(src/vehicle-management/src/pages/ChatUpload.jsx and
src/vehicle-management/src/components/TransferPreview.jsx) -/

namespace Reconciler

/-- A canonical vehicle of the registry. -/
structure Vehicle where
  id : String
  plate : String
deriving DecidableEq, Repr

/-- A canonical driver of the registry. -/
structure Driver where
  id : String
  name : String
deriving DecidableEq, Repr

/-- String.prototype.includes. -/
def containsStr (hay needle : String) : Bool :=
  WhatsAppParser.containsSub hay.data needle.data

/-- split(' ')[0]. -/
def firstToken (s : String) : String := (s.splitOn " ").headD ""

/-- replace(/\s+/g, '') — remove all whitespace. -/
def stripWs (s : String) : String := String.mk (s.data.filter (fun c => !isJsSpace c))

/-- replace(/[-\s]/g, ''). -/
def stripWsDash (s : String) : String :=
  String.mk (s.data.filter (fun c => !(isJsSpace c || c = '-')))

/-- replace(/[-]/g, ''). -/
def stripDash (s : String) : String := String.mk (s.data.filter (fun c => !(c = '-')))

/-- substring(0, n). -/
def strTake (s : String) (n : Nat) : String := String.mk (s.data.take n)

/-- ChatUpload.findVehicleByIdentifier: exact plate match after lower-casing
and whitespace removal, or with separators removed on both sides. -/
def findVehicleByIdentifier (vehicles : List Vehicle) (identifier : String) :
    Option Vehicle :=
  if identifier = "" then none
  else
    let cleanId := stripWs (jsToLower identifier)
    vehicles.find? fun v =>
      stripWs (jsToLower v.plate) == cleanId ||
      stripWsDash (jsToLower v.plate) == stripDash cleanId

/-- ChatUpload.findDriverByName: containment in either direction (against the
full canonical name, or of its first name in the candidate token). -/
def findDriverByName (drivers : List Driver) (name : String) : Option Driver :=
  if name = "" then none
  else
    let cleanName := jsTrim (jsToLower name)
    drivers.find? fun d =>
      containsStr (jsToLower d.name) cleanName ||
      containsStr cleanName (firstToken (jsToLower d.name))

/-- ChatUpload.getSimilarVehicles: up to 3 plates sharing a 3-character
prefix with the token (in either direction). -/
def getSimilarVehicles (vehicles : List Vehicle) (identifier : String) :
    List Vehicle :=
  if identifier = "" then []
  else
    let cleanId := jsToLower identifier
    (vehicles.filter fun v =>
      containsStr (jsToLower v.plate) (strTake cleanId 3) ||
      containsStr cleanId (strTake (jsToLower v.plate) 3)).take 3

/-- ChatUpload.getSimilarDrivers: up to 3 drivers sharing a first token with
the candidate (in either direction). -/
def getSimilarDrivers (drivers : List Driver) (name : String) : List Driver :=
  if name = "" then []
  else
    let cleanName := jsToLower name
    (drivers.filter fun d =>
      let driverName := jsToLower d.name
      containsStr driverName (firstToken cleanName) ||
      containsStr cleanName (firstToken driverName)).take 3

/-- The suggestions object of an enriched transfer (null for a role that was
resolved). -/
structure Suggestions where
  vehicle : Option (List Vehicle)
  fromDriver : Option (List Driver)
  toDriver : Option (List Driver)
deriving DecidableEq, Repr

/-- An enriched transfer (the spread of the parsed transfer plus the
reconciliation fields added by enrichTransfers). -/
structure ReconciledTransfer where
  vehicleId : String
  fromDriver : Option String
  toDriver : String
  vehicleMatch : Option Vehicle
  fromDriverMatch : Option Driver
  toDriverMatch : Option Driver
  isValid : Bool
  suggestions : Suggestions
deriving DecidableEq, Repr

/-- The body of the map in ChatUpload.enrichTransfers: isValid is the JS
truthiness !!(vehicle && toDriver), and a suggestion list is attached exactly
for the unresolved roles. -/
def enrichTransfer (vehicles : List Vehicle) (drivers : List Driver)
    (t : WhatsAppParser.TransferRec) : ReconciledTransfer :=
  let vehicle := findVehicleByIdentifier vehicles t.vehicleId
  let fromDriver := match t.fromDriver with
    | some n => findDriverByName drivers n
    | none => none
  let toDriver := findDriverByName drivers t.toDriver
  { vehicleId := t.vehicleId
    fromDriver := t.fromDriver
    toDriver := t.toDriver
    vehicleMatch := vehicle
    fromDriverMatch := fromDriver
    toDriverMatch := toDriver
    isValid := vehicle.isSome && toDriver.isSome
    suggestions :=
      { vehicle := match vehicle with
          | some _ => none
          | none => some (getSimilarVehicles vehicles t.vehicleId)
        fromDriver := match fromDriver with
          | some _ => none
          | none => some (getSimilarDrivers drivers (t.fromDriver.getD ""))
        toDriver := match toDriver with
          | some _ => none
          | none => some (getSimilarDrivers drivers t.toDriver) } }

/-- ChatUpload.enrichTransfers. -/
def enrichTransfers (vehicles : List Vehicle) (drivers : List Driver)
    (ts : List WhatsAppParser.TransferRec) : List ReconciledTransfer :=
  ts.map (enrichTransfer vehicles drivers)

/-- The three manual-override targets of TransferPreview.handleManualMatch. -/
inductive MatchType where
  | vehicle
  | fromDriver
  | toDriver
deriving DecidableEq, Repr

/-- TransferPreview.handleManualMatch on a single transfer: replace the
selected role's match by the registry entry with the selected id (find may
miss, leaving the role unresolved), then re-derive isValid from the current
vehicle and to-driver matches. -/
def handleManualMatch (vehicles : List Vehicle) (drivers : List Driver)
    (t : ReconciledTransfer) (ty : MatchType) (selectedId : String) :
    ReconciledTransfer :=
  let t' := match ty with
    | .vehicle => { t with vehicleMatch := vehicles.find? (fun v => v.id == selectedId) }
    | .fromDriver => { t with fromDriverMatch := drivers.find? (fun d => d.id == selectedId) }
    | .toDriver => { t with toDriverMatch := drivers.find? (fun d => d.id == selectedId) }
  { t' with isValid := t'.vehicleMatch.isSome && t'.toDriverMatch.isSome }

/-- A sequence of manual overrides applied in order. -/
def applyOverrides (vehicles : List Vehicle) (drivers : List Driver)
    (t : ReconciledTransfer) (ops : List (MatchType × String)) : ReconciledTransfer :=
  ops.foldl (fun acc op => handleManualMatch vehicles drivers acc op.1 op.2) t

/-- The claimed validity invariant: isValid holds iff both the vehicle and
the to-driver are resolved. -/
def validInvariant (t : ReconciledTransfer) : Prop :=
  t.isValid = (t.vehicleMatch.isSome && t.toDriverMatch.isSome)

end Reconciler

/-! ## AlertService (src/vehicle-management/src/services/AlertService.js)

The Firestore reads and writes are modelled by explicit query outcomes and an
explicit document store; Date values are epoch milliseconds, with the
local-time day-of-week of the checked date passed alongside (getDay). -/

namespace AlertService

/-- ALERT_CONFIG.ALERT_DAYS (0 = Sunday ... 6 = Saturday): Monday to
Saturday. -/
def ALERT_DAYS : List Nat := [1, 2, 3, 4, 5, 6]

/-- ALERT_CONFIG.DEFAULT_ALERT_HOUR. -/
def DEFAULT_ALERT_HOUR : Nat := 18

/-- ALERT_TYPES.DAILY_PROCESSING. -/
def DAILY_PROCESSING : String := "daily_processing"

/-- AlertService._shouldSendAlert: alert when the date's day-of-week is
configured and Math.ceil((now - date) / 86400000) >= 1.  The ceiling of the
exact quotient is (diff + 86399999) div 86400000; the JS double division is
exact enough that the two agree on every realistic timestamp. -/
def _shouldSendAlert (dateMs nowMs : Int) (dayOfWeek : Nat) : Bool :=
  let diffTime := nowMs - dateMs
  let diffDays := (diffTime + 86400000 - 1) / 86400000
  ALERT_DAYS.contains dayOfWeek && decide (1 ≤ diffDays)

/-- The stored daily-processing record, reduced to the fields the checks
read. -/
structure DailyRecord where
  hash : String
deriving DecidableEq, Repr

/-- Outcome of the Firestore query of checkDailyProcessing: no record for the
date, the most recent record, or a thrown error (including an invalid date
rejected by _validateDate). -/
inductive LedgerQuery where
  | empty
  | found (rec : DailyRecord)
  | failure
deriving DecidableEq, Repr

/-- The result record of checkDailyProcessing (error is the presence of the
error message field). -/
structure DailyProcessingCheck where
  processed : Bool
  lastProcessing : Option DailyRecord
  shouldAlert : Bool
  error : Bool
deriving DecidableEq, Repr

/-- AlertService.checkDailyProcessing: an empty query means unprocessed and
defers to _shouldSendAlert; a record means processed and never alerts; the
catch branch reports unprocessed with shouldAlert unconditionally true. -/
def checkDailyProcessing (q : LedgerQuery) (dateMs nowMs : Int) (dayOfWeek : Nat) :
    DailyProcessingCheck :=
  match q with
  | .empty => ⟨false, none, _shouldSendAlert dateMs nowMs dayOfWeek, false⟩
  | .found r => ⟨true, some r, false, false⟩
  | .failure => ⟨false, none, true, true⟩

/-- A sent-alert record (metadata fields omitted). -/
structure SentAlertRecord where
  date : String
  type : String
  sentAtMs : Int
deriving DecidableEq, Repr

/-- Whether a stored record matches the (date, daily_processing) idempotency
key — the where-clauses of _checkAlertSent. -/
def matchesDaily (dateStr : String) (e : String × SentAlertRecord) : Bool :=
  e.2.date == dateStr && e.2.type == DAILY_PROCESSING

/-- AlertService._checkAlertSent over the sent_alerts documents (doc id,
record): the query is non-empty iff some record matches date and type. -/
def _checkAlertSent (docs : List (String × SentAlertRecord)) (dateStr : String) :
    Bool :=
  docs.any (matchesDaily dateStr)

/-- Firestore setDoc on a keyed document list: replace the document with that
id, or append a new one. -/
def setDoc : List (String × SentAlertRecord) → String → SentAlertRecord →
    List (String × SentAlertRecord)
  | [], id, r => [(id, r)]
  | e :: ds, id, r => if e.1 = id then (id, r) :: ds else e :: setDoc ds id r

/-- AlertService._recordAlertSent: setDoc at the fixed id daily_dateStr. -/
def _recordAlertSent (docs : List (String × SentAlertRecord)) (dateStr : String)
    (nowMs : Int) : List (String × SentAlertRecord) :=
  setDoc docs ("daily_" ++ dateStr) ⟨dateStr, DAILY_PROCESSING, nowMs⟩

/-- The state the alert path touches: the sent_alerts collection and the
number of notifications dispatched through the email collaborator. -/
structure AlertState where
  sentAlerts : List (String × SentAlertRecord)
  emailsSent : Nat
deriving DecidableEq, Repr

/-- AlertService.sendDailyAlert for an already-formatted date string, with
the persistence collaborator behaving normally (reads see prior writes, no
thrown errors): check the idempotency key, and only when absent dispatch the
email and then record the alert; returns whether an alert was sent. -/
def sendDailyAlert (st : AlertState) (dateStr : String) (nowMs : Int) :
    AlertState × Bool :=
  if _checkAlertSent st.sentAlerts dateStr then (st, false)
  else
    let st1 : AlertState := { st with emailsSent := st.emailsSent + 1 }
    let st2 : AlertState :=
      { st1 with sentAlerts := _recordAlertSent st1.sentAlerts dateStr nowMs }
    (st2, true)

/-- Number of stored SentAlertRecords for (date, daily_processing). -/
def countDailyRecords (st : AlertState) (dateStr : String) : Nat :=
  (st.sentAlerts.filter (matchesDaily dateStr)).length

end AlertService


/-! ## Helper lemmas -/

namespace DataHashService

/-- listCharLe is reflexive. -/
theorem listCharLe_refl : ∀ a : List Char, listCharLe a a = true := by
  intro a
  induction a with
  | nil => rfl
  | cons x xs ih => simp [listCharLe, ih]

/-- listCharLe is total. -/
theorem listCharLe_total : ∀ a b : List Char,
    listCharLe a b = true ∨ listCharLe b a = true := by
  intro a
  induction a with
  | nil => intro b; exact Or.inl rfl
  | cons x xs ih =>
    intro b
    cases b with
    | nil => exact Or.inr rfl
    | cons y ys =>
      simp only [listCharLe]
      by_cases hxy : x = y
      · subst hxy
        simp only [if_pos rfl]
        exact ih ys
      · rw [if_neg hxy, if_neg (Ne.symm hxy)]
        rcases lt_trichotomy x y with h | h | h
        · exact Or.inl (decide_eq_true h)
        · exact absurd h hxy
        · exact Or.inr (decide_eq_true h)

/-- listCharLe is transitive. -/
theorem listCharLe_trans : ∀ a b c : List Char, listCharLe a b = true →
    listCharLe b c = true → listCharLe a c = true := by
  intro a
  induction a with
  | nil => intro b c _ _; rfl
  | cons x xs ih =>
    intro b c hab hbc
    cases b with
    | nil => simp [listCharLe] at hab
    | cons y ys =>
      cases c with
      | nil => simp [listCharLe] at hbc
      | cons z zs =>
        simp only [listCharLe] at hab hbc ⊢
        by_cases hxy : x = y
        · subst hxy
          rw [if_pos rfl] at hab
          by_cases hyz : x = z
          · subst hyz
            rw [if_pos rfl] at hbc ⊢
            exact ih ys zs hab hbc
          · rw [if_neg hyz] at hbc ⊢
            exact hbc
        · rw [if_neg hxy] at hab
          have hlt : x < y := of_decide_eq_true hab
          by_cases hyz : y = z
          · subst hyz
            rw [if_neg hxy]
            exact decide_eq_true hlt
          · rw [if_neg hyz] at hbc
            have hlt2 : y < z := of_decide_eq_true hbc
            have hxz : x < z := lt_trans hlt hlt2
            rw [if_neg (ne_of_lt hxz)]
            exact decide_eq_true hxz

/-- listCharLe is antisymmetric. -/
theorem listCharLe_antisymm : ∀ a b : List Char, listCharLe a b = true →
    listCharLe b a = true → a = b := by
  intro a
  induction a with
  | nil =>
    intro b _ hba
    cases b with
    | nil => rfl
    | cons y ys => simp [listCharLe] at hba
  | cons x xs ih =>
    intro b hab hba
    cases b with
    | nil => simp [listCharLe] at hab
    | cons y ys =>
      simp only [listCharLe] at hab hba
      by_cases hxy : x = y
      · subst hxy
        rw [if_pos rfl] at hab hba
        rw [ih ys hab hba]
      · rw [if_neg hxy] at hab
        rw [if_neg (Ne.symm hxy)] at hba
        exact absurd (lt_trans (of_decide_eq_true hab) (of_decide_eq_true hba))
          (lt_irrefl x)

/-- Antisymmetry of the string comparator. -/
theorem strLe_antisymm (a b : String) (h1 : strLe a b = true)
    (h2 : strLe b a = true) : a = b := by
  cases a
  cases b
  exact congrArg String.mk (listCharLe_antisymm _ _ h1 h2)

instance : IsTotal NormalizedTransfer transferLe :=
  ⟨fun a b => listCharLe_total (sortKey a).data (sortKey b).data⟩

instance : IsTrans NormalizedTransfer transferLe :=
  ⟨fun _ _ _ h h' => listCharLe_trans _ _ _ h h'⟩

instance : IsTotal String fileLe := ⟨fun a b => listCharLe_total a.data b.data⟩

instance : IsTrans String fileLe := ⟨fun _ _ _ h h' => listCharLe_trans _ _ _ h h'⟩

instance : IsAntisymm String fileLe := ⟨strLe_antisymm⟩

/-- Two lists sorted by the transfer key that are permutations of each other
are equal, provided equal keys only occur for equal elements. -/
theorem sorted_perm_eq_of_key :
    ∀ l₁ l₂ : List NormalizedTransfer, l₁.Perm l₂ →
      l₁.Sorted transferLe → l₂.Sorted transferLe →
      (∀ a ∈ l₁, ∀ b ∈ l₁, sortKey a = sortKey b → a = b) → l₁ = l₂ := by
  intro l₁
  induction l₁ with
  | nil =>
    intro l₂ hp _ _ _
    exact hp.nil_eq
  | cons a t ih =>
    intro l₂ hp hs₁ hs₂ hinj
    cases l₂ with
    | nil => simp at hp
    | cons b t₂ =>
      have hsc₁ := List.sorted_cons.mp hs₁
      have hsc₂ := List.sorted_cons.mp hs₂
      have hbmem : b ∈ a :: t := hp.mem_iff.mpr (List.mem_cons_self b t₂)
      have hamem : a ∈ b :: t₂ := hp.mem_iff.mp (List.mem_cons_self a t)
      have h1 : transferLe a b := by
        rcases List.mem_cons.mp hbmem with h | h
        · rw [h]
          exact listCharLe_refl _
        · exact hsc₁.1 b h
      have h2 : transferLe b a := by
        rcases List.mem_cons.mp hamem with h | h
        · rw [h]
          exact listCharLe_refl _
        · exact hsc₂.1 a h
      have hab : a = b := hinj a (List.mem_cons_self a t) b hbmem
        (strLe_antisymm _ _ h1 h2)
      subst hab
      have heq : t = t₂ := ih t₂ hp.cons_inv hsc₁.2 hsc₂.2
        fun x hx y hy h => hinj x (List.mem_cons_of_mem a hx) y (List.mem_cons_of_mem a hy) h
      rw [heq]

end DataHashService

namespace WhatsAppParser

/-- Characters of the deduplicated list never carry a key already seen. -/
theorem dedupAux_key_not_seen (l : List TransferRec) :
    ∀ seen, ∀ t ∈ deduplicateTransfersAux seen l, dedupKey t ∉ seen := by
  induction l with
  | nil => intro seen t ht; simp [deduplicateTransfersAux] at ht
  | cons c cs ih =>
    intro seen t ht
    simp only [deduplicateTransfersAux] at ht
    split at ht
    · exact ih seen t ht
    · rename_i hc
      rcases List.mem_cons.mp ht with h | h
      · subst h
        intro hmem
        exact hc (by simpa using hmem)
      · intro hmem
        exact (ih (dedupKey c :: seen) t h) (List.mem_cons_of_mem _ hmem)

/-- Deduplication yields a subsequence of its input. -/
theorem dedupAux_sublist (l : List TransferRec) :
    ∀ seen, (deduplicateTransfersAux seen l).Sublist l := by
  induction l with
  | nil => intro seen; simp [deduplicateTransfersAux]
  | cons c cs ih =>
    intro seen
    simp only [deduplicateTransfersAux]
    split
    · exact (ih seen).trans (List.sublist_cons_self c cs)
    · exact (ih (dedupKey c :: seen)).cons₂ c

/-- The keys of the deduplicated list are pairwise distinct. -/
theorem dedupAux_keys_nodup (l : List TransferRec) :
    ∀ seen, ((deduplicateTransfersAux seen l).map dedupKey).Nodup := by
  induction l with
  | nil => intro seen; simp [deduplicateTransfersAux]
  | cons c cs ih =>
    intro seen
    simp only [deduplicateTransfersAux]
    split
    · exact ih seen
    · simp only [List.map_cons, List.nodup_cons]
      refine ⟨?_, ih (dedupKey c :: seen)⟩
      intro hmem
      obtain ⟨t, ht, hk⟩ := List.mem_map.mp hmem
      exact dedupAux_key_not_seen cs (dedupKey c :: seen) t ht
        (hk ▸ List.mem_cons_self _ _)

/-- Every input element's key is represented among the survivors (unless it
was already seen). -/
theorem dedupAux_coverage (l : List TransferRec) :
    ∀ seen, ∀ t ∈ l, dedupKey t ∈ seen ∨
      ∃ u ∈ deduplicateTransfersAux seen l, dedupKey u = dedupKey t := by
  induction l with
  | nil => intro seen t ht; simp at ht
  | cons c cs ih =>
    intro seen t ht
    simp only [deduplicateTransfersAux]
    rcases List.mem_cons.mp ht with h | h
    · subst h
      split
      · rename_i hc
        left
        simpa using hc
      · right
        exact ⟨t, List.mem_cons_self _ _, rfl⟩
    · split
      · exact ih seen t h
      · rcases ih (dedupKey c :: seen) t h with hmem | ⟨u, hu, hk⟩
        · rcases List.mem_cons.mp hmem with he | he
          · right
            exact ⟨c, List.mem_cons_self _ _, he.symm⟩
          · left
            exact he
        · right
          exact ⟨u, List.mem_cons_of_mem _ hu, hk⟩

/-- Every survivor is the earliest occurrence of its key: the input splits
around it with no earlier element sharing the key. -/
theorem dedupAux_first (l : List TransferRec) :
    ∀ seen, ∀ t ∈ deduplicateTransfersAux seen l,
      ∃ l₁ l₂, l = l₁ ++ t :: l₂ ∧ ∀ u ∈ l₁, dedupKey u ≠ dedupKey t := by
  induction l with
  | nil => intro seen t ht; simp [deduplicateTransfersAux] at ht
  | cons c cs ih =>
    intro seen t ht
    simp only [deduplicateTransfersAux] at ht
    split at ht
    · rename_i hc
      obtain ⟨l₁, l₂, hsplit, hne⟩ := ih seen t ht
      refine ⟨c :: l₁, l₂, by simp [hsplit], ?_⟩
      intro u hu
      rcases List.mem_cons.mp hu with h | h
      · subst h
        have hseen : dedupKey u ∈ seen := by simpa using hc
        have := dedupAux_key_not_seen cs seen t ht
        intro hk
        exact this (hk ▸ hseen)
      · exact hne u h
    · rename_i hc
      rcases List.mem_cons.mp ht with h | h
      · subst h
        exact ⟨[], cs, rfl, by simp⟩
      · obtain ⟨l₁, l₂, hsplit, hne⟩ := ih (dedupKey c :: seen) t h
        refine ⟨c :: l₁, l₂, by simp [hsplit], ?_⟩
        intro u hu
        rcases List.mem_cons.mp hu with hx | hx
        · subst hx
          have := dedupAux_key_not_seen cs (dedupKey u :: seen) t h
          intro hk
          exact this (hk ▸ List.mem_cons_self _ _)
        · exact hne u hx

/-! ### Character lemmas for the vehicle-id cleaner -/

/-- Char order is the order of the code points. -/
theorem char_le_iff (a b : Char) : a ≤ b ↔ a.toNat ≤ b.toNat := by
  simp [Char.le_def, UInt32.le_def, Char.toNat, UInt32.toNat, BitVec.le_def]

/-- Char.ofNat at a valid code point. -/
theorem char_toNat_ofNat (n : Nat) (h : n.isValidChar) : (Char.ofNat n).toNat = n := by
  simp [Char.ofNat, h]
  rfl

/-- Upper-casing never produces an ASCII lower-case letter. -/
theorem jsToUpperChar_not_lower (c : Char) :
    ¬('a' ≤ jsToUpperChar c ∧ jsToUpperChar c ≤ 'z') := by
  unfold jsToUpperChar
  split
  · rename_i h
    rw [Bool.and_eq_true, decide_eq_true_eq, decide_eq_true_eq] at h
    obtain ⟨h1, h2⟩ := h
    rw [char_le_iff] at h1 h2
    have ha : ('a').toNat = 97 := rfl
    have hz : ('z').toNat = 122 := rfl
    have hv : (c.toNat - 32).isValidChar := Or.inl (by omega)
    rintro ⟨g1, g2⟩
    rw [char_le_iff, char_toNat_ofNat _ hv] at g1
    omega
  · rename_i h
    rintro ⟨g1, g2⟩
    simp [g1, g2] at h

/-- Membership through trimming. -/
theorem mem_trimList {c : Char} {l : List Char} (h : c ∈ trimList l) : c ∈ l := by
  unfold trimList at h
  have h1 := (List.dropWhile_sublist isJsSpace).subset (List.mem_reverse.mp h)
  exact (List.dropWhile_sublist isJsSpace).subset (List.mem_reverse.mp h1)

/-- A character of the whitespace-collapsed list is a space or a non-space
character of the input. -/
theorem mem_collapseWsGo {c : Char} :
    ∀ (l : List Char) (b : Bool), c ∈ collapseWsGo b l →
      c = ' ' ∨ (c ∈ l ∧ isJsSpace c = false) := by
  intro l
  induction l with
  | nil => intro b h; simp [collapseWsGo] at h
  | cons d ds ih =>
    intro b h
    simp only [collapseWsGo] at h
    by_cases hd : isJsSpace d = true
    · rw [if_pos hd] at h
      have hrec : c ∈ collapseWsGo true ds → c = ' ' ∨ (c ∈ d :: ds ∧ isJsSpace c = false) := by
        intro hr
        rcases ih true hr with h' | ⟨hm, hs⟩
        · exact Or.inl h'
        · exact Or.inr ⟨List.mem_cons_of_mem _ hm, hs⟩
      cases b with
      | true => simpa using hrec (by simpa using h)
      | false =>
        rcases List.mem_cons.mp (by simpa using h) with h' | h'
        · exact Or.inl h'
        · exact hrec h'
    · rw [if_neg hd] at h
      rcases List.mem_cons.mp h with h' | h'
      · subst h'
        exact Or.inr ⟨List.mem_cons_self _ _, by simpa using hd⟩
      · rcases ih false h' with h'' | ⟨hm, hs⟩
        · exact Or.inl h''
        · exact Or.inr ⟨List.mem_cons_of_mem _ hm, hs⟩

/-- The characters cleanVehicleId can output: upper-case ASCII letters,
digits, underscore, hyphen and the single space. -/
theorem cleanVehicleId_chars (l : List Char) :
    ∀ c ∈ cleanVehicleId l,
      ('A' ≤ c ∧ c ≤ 'Z') ∨ ('0' ≤ c ∧ c ≤ '9') ∨ c = '_' ∨ c = '-' ∨ c = ' ' := by
  intro c hc
  unfold cleanVehicleId at hc
  split at hc
  · simp at hc
  · have hc1 := mem_trimList hc
    obtain ⟨hmem, hkeep⟩ := List.mem_filter.mp hc1
    rcases mem_collapseWsGo _ false hmem with hsp | ⟨hmap, hnsp⟩
    · right; right; right; right; exact hsp
    · obtain ⟨d, _, hd⟩ := List.mem_map.mp hmap
      unfold keepVehChar at hkeep
      simp only [Bool.or_eq_true] at hkeep
      rcases hkeep with (hword | hspc) | hdash
      · unfold isJsWordChar at hword
        simp only [Bool.or_eq_true, Bool.and_eq_true, decide_eq_true_eq] at hword
        rcases hword with ((hlow | hup) | hdig) | hund
        · exact absurd (hd ▸ hlow) (jsToUpperChar_not_lower d)
        · exact Or.inl hup
        · exact Or.inr (Or.inl hdig)
        · exact Or.inr (Or.inr (Or.inl hund))
      · simp [hnsp] at hspc
      · simp only [decide_eq_true_eq] at hdash
        exact Or.inr (Or.inr (Or.inr (Or.inl hdash)))

end WhatsAppParser

namespace AlertService

/-- A store with no record for the key makes _checkAlertSent return false. -/
theorem checkAlertSent_false (docs : List (String × SentAlertRecord)) (dateStr : String)
    (h : (docs.filter (matchesDaily dateStr)).length = 0) :
    _checkAlertSent docs dateStr = false := by
  rw [List.length_eq_zero] at h
  by_contra hne
  rw [Bool.not_eq_false, _checkAlertSent, List.any_eq_true] at hne
  obtain ⟨x, hx, hpx⟩ := hne
  have : x ∈ docs.filter (matchesDaily dateStr) := List.mem_filter.mpr ⟨hx, hpx⟩
  rw [h] at this
  simp at this

/-- Writing the matching record into a store without one yields exactly one
matching record. -/
theorem setDoc_filter_one (docs : List (String × SentAlertRecord)) (id : String)
    (r : SentAlertRecord) (dateStr : String)
    (hr : matchesDaily dateStr (id, r) = true)
    (h : (docs.filter (matchesDaily dateStr)).length = 0) :
    ((setDoc docs id r).filter (matchesDaily dateStr)).length = 1 := by
  induction docs with
  | nil => simp [setDoc, List.filter, hr]
  | cons e ds ih =>
    by_cases hpe : matchesDaily dateStr e = true
    · rw [List.filter_cons_of_pos hpe] at h
      simp at h
    · rw [List.filter_cons_of_neg (by simpa using hpe)] at h
      simp only [setDoc]
      split
      · rw [List.filter_cons_of_pos hr]
        simp [h]
      · rw [List.filter_cons_of_neg (by simpa using hpe)]
        exact ih h

end AlertService

/-! ## Supporting lemmas about the hash digits -/

namespace DataHashService

theorem hexChar_hex (d : Nat) (h : d < 16) : isLowerHexDigit (hexChar d) = true := by
  interval_cases d <;> decide

theorem hexDigitsAux_all_hex (fuel : Nat) :
    ∀ n, ∀ c ∈ hexDigitsAux fuel n, isLowerHexDigit c = true := by
  induction fuel with
  | zero =>
    intro n c hc
    simp only [hexDigitsAux, List.mem_singleton] at hc
    subst hc
    exact hexChar_hex _ (Nat.mod_lt _ (by omega))
  | succ fuel ih =>
    intro n c hc
    simp only [hexDigitsAux] at hc
    split at hc
    · simp only [List.mem_singleton] at hc
      subst hc
      exact hexChar_hex _ (by omega)
    · rcases List.mem_append.mp hc with h1 | h2
      · exact ih _ c h1
      · simp only [List.mem_singleton] at h2
        subst h2
        exact hexChar_hex _ (Nat.mod_lt _ (by omega))

theorem hexDigits_all_hex (n : Nat) :
    ∀ c ∈ hexDigits n, isLowerHexDigit c = true :=
  hexDigitsAux_all_hex n n

theorem hexDigitsAux_length_le (fuel : Nat) :
    ∀ k n : Nat, 1 ≤ k → n < 16 ^ k → n ≤ fuel →
    (hexDigitsAux fuel n).length ≤ k := by
  induction fuel with
  | zero =>
    intro k n hk _ _
    simpa [hexDigitsAux] using hk
  | succ fuel ih =>
    intro k n hk hn hf
    simp only [hexDigitsAux]
    split
    · simpa using hk
    · rename_i h
      have hk2 : 2 ≤ k := by
        rcases Nat.lt_or_ge k 2 with h2 | h2
        · have : k = 1 := by omega
          subst this
          simp at hn
          omega
        · exact h2
      have hdiv : n / 16 < 16 ^ (k - 1) := by
        rw [Nat.div_lt_iff_lt_mul (by omega)]
        calc n < 16 ^ k := hn
        _ = 16 ^ (k - 1) * 16 := by
            rw [← pow_succ]
            congr 1
            omega
      have hdf : n / 16 ≤ fuel := by
        have : n / 16 < n := Nat.div_lt_self (by omega) (by omega)
        omega
      have := ih (k - 1) (n / 16) (by omega) hdiv hdf
      simp only [List.length_append, List.length_singleton]
      omega

theorem hexDigits_length_le (k n : Nat) (hk : 1 ≤ k) (hn : n < 16 ^ k) :
    (hexDigits n).length ≤ k :=
  hexDigitsAux_length_le n k n hk hn (le_refl n)

theorem padStartList_length (l : List Char) (n : Nat) (c : Char) (h : l.length ≤ n) :
    (padStartList l n c).length = n := by
  simp [padStartList]
  omega

theorem padStartList_mem (l : List Char) (n : Nat) (c : Char) :
    ∀ x ∈ padStartList l n c, x = c ∨ x ∈ l := by
  intro x hx
  rcases List.mem_append.mp hx with h | h
  · exact Or.inl (List.eq_of_mem_replicate h)
  · exact Or.inr h

theorem toInt32_bounds (n : Int) :
    -2147483648 ≤ toInt32 n ∧ toInt32 n < 2147483648 := by
  unfold toInt32
  omega

theorem djb2Aux_range (l : List Char) :
    ∀ h : Int, -2147483648 ≤ h ∧ h < 2147483648 →
      -2147483648 ≤ djb2Aux h l ∧ djb2Aux h l < 2147483648 := by
  induction l with
  | nil =>
    intro h hh
    simpa [djb2Aux] using hh
  | cons c cs ih =>
    intro h hh
    have hb : -2147483648 ≤ djb2Step h c ∧ djb2Step h c < 2147483648 :=
      toInt32_bounds _
    simp only [djb2Aux]
    cases hv : djb2Step h c with
    | ofNat v => exact ih _ (hv ▸ hb)
    | negSucc v => exact ih _ (hv ▸ hb)

theorem djb2_range (s : String) :
    -2147483648 ≤ djb2 s ∧ djb2 s < 2147483648 :=
  djb2Aux_range s.data 5381 (by omega)

theorem calculateHash_valid (s : String) : isValidHash (_calculateHash s) = true := by
  have hr := djb2_range s
  have h8 : (hexDigits (djb2 s).natAbs).length ≤ 8 := by
    apply hexDigits_length_le 8 _ (by omega)
    have : (djb2 s).natAbs ≤ 2147483648 := by omega
    omega
  have h2 : (hexDigits (_calculateChecksum s)).length ≤ 2 := by
    apply hexDigits_length_le 2 _ (by omega)
    have h256 : _calculateChecksum s < 256 := Nat.mod_lt _ (by omega)
    omega
  unfold isValidHash _calculateHash
  apply Bool.and_eq_true_iff.mpr
  constructor
  · simp only [List.length_append,
      padStartList_length _ _ _ h8, padStartList_length _ _ _ h2]
    decide
  · rw [List.all_eq_true]
    intro c hc
    rcases List.mem_append.mp hc with h | h
    · rcases padStartList_mem _ _ _ c h with h' | h'
      · subst h'; decide
      · exact hexDigits_all_hex _ c h'
    · rcases padStartList_mem _ _ _ c h with h' | h'
      · subst h'; decide
      · exact hexDigits_all_hex _ c h'

end DataHashService

/-! ## The claims -/

open DataHashService WhatsAppParser Reconciler AlertService

/-- Claim C1: the spec demands that a serialization/hashing failure inside
DataHashService.generateDataHash propagate as a hard error, with the
Date.now()/Math.random() fallback branch unreachable.  The code instead
catches the error and returns the fallback digest: on a throwing input
(modelled by none, e.g. a null data object) the result depends on the clock —
two runs at different times return different digests — while on the normal
path the result never depends on clock or randomness. -/
theorem claim_C1_fallback_digest_reachable :
    generateDataHash none 1000 "x" ≠ generateDataHash none 2000 "x" ∧
    generateDataHash none 1000 "x" = _generateFallbackHash 1000 "x" ∧
    ∀ (d : ProcessingData) (n n' : Nat) (r r' : String),
      generateDataHash (some d) n r = generateDataHash (some d) n' r' :=
  ⟨by decide, rfl, fun _ _ _ _ _ => rfl⟩

/-- Claim C2 (as written, refuted): two batches whose transfer lists are
permutations of each other, with equal counts, files, source (and department),
need not hash equally when two transfers share vehicleId, toDriver and
fromDriver but differ in dateTime — the sort key omits dateTime, so the
stable sort preserves their input order and the serializations differ. -/
theorem claim_C2_counterexample :
    ([⟨"v1", "d2", some "d3", some ⟨2024, 1, 2, 3, 4, 5, 0⟩⟩,
      ⟨"v1", "d2", some "d3", some ⟨2024, 1, 2, 3, 4, 6, 0⟩⟩] : List TransferIn).Perm
      [⟨"v1", "d2", some "d3", some ⟨2024, 1, 2, 3, 4, 6, 0⟩⟩,
       ⟨"v1", "d2", some "d3", some ⟨2024, 1, 2, 3, 4, 5, 0⟩⟩] ∧
    generateDataHash
        (some ⟨2, [⟨"v1", "d2", some "d3", some ⟨2024, 1, 2, 3, 4, 5, 0⟩⟩,
                   ⟨"v1", "d2", some "d3", some ⟨2024, 1, 2, 3, 4, 6, 0⟩⟩],
               ["f"], "whatsapp", none⟩) 0 "" ≠
      generateDataHash
        (some ⟨2, [⟨"v1", "d2", some "d3", some ⟨2024, 1, 2, 3, 4, 6, 0⟩⟩,
                   ⟨"v1", "d2", some "d3", some ⟨2024, 1, 2, 3, 4, 5, 0⟩⟩],
               ["f"], "whatsapp", none⟩) 0 "" := by
  constructor
  · decide
  · decide

/-- Claim C2 (amended): permutation invariance of the fingerprint holds for
batches with equal transfersCount, source and department whenever no two
normalized transfers share the vehicleId-toDriver-fromDriver sort key without
being fully equal (in particular, whenever no two transfers share those three
tokens while differing in dateTime). -/
theorem claim_C2_perm_invariance (d1 d2 : ProcessingData) (nowMs : Nat) (rnd : String)
    (hc : d1.transfersCount = d2.transfersCount)
    (hs : d1.source = d2.source)
    (hd : d1.department = d2.department)
    (ht : d1.transfers.Perm d2.transfers)
    (hf : d1.filesProcessed.Perm d2.filesProcessed)
    (hinj : ∀ a ∈ d1.transfers.map normTransfer, ∀ b ∈ d1.transfers.map normTransfer,
      sortKey a = sortKey b → a = b) :
    generateDataHash (some d1) nowMs rnd = generateDataHash (some d2) nowMs rnd := by
  have htr : _normalizeTransfers d1.transfers = _normalizeTransfers d2.transfers := by
    unfold _normalizeTransfers
    apply sorted_perm_eq_of_key
    · exact (List.perm_insertionSort _ _).trans
        ((ht.map normTransfer).trans (List.perm_insertionSort _ _).symm)
    · exact List.sorted_insertionSort _ _
    · exact List.sorted_insertionSort _ _
    · intro a ha b hb h
      exact hinj a (by simpa using ha) b (by simpa using hb) h
  have hfi : _normalizeFilesList d1.filesProcessed =
      _normalizeFilesList d2.filesProcessed := by
    unfold _normalizeFilesList
    exact List.eq_of_perm_of_sorted
      ((List.perm_insertionSort _ _).trans
        (((hf.map _normalizeString).filter _).trans (List.perm_insertionSort _ _).symm))
      (List.sorted_insertionSort _ _) (List.sorted_insertionSort _ _)
  have hn : _normalizeData d1 = _normalizeData d2 := by
    unfold _normalizeData
    rw [hc, hs, hd, htr, hfi]
  show _calculateHash (_serializeData (_normalizeData d1)) =
    _calculateHash (_serializeData (_normalizeData d2))
  rw [hn]

/-- Claim C2 witness: the amended invariance at a concrete pair of permuted
batches with distinct transfer keys. -/
theorem claim_C2_perm_invariance_witness :
    generateDataHash
        (some ⟨2, [⟨"a", "b", none, none⟩, ⟨"c", "d", none, none⟩],
               ["f", "g"], "whatsapp", none⟩) 5 "r" =
      generateDataHash
        (some ⟨2, [⟨"c", "d", none, none⟩, ⟨"a", "b", none, none⟩],
               ["g", "f"], "whatsapp", none⟩) 5 "r" :=
  claim_C2_perm_invariance
    ⟨2, [⟨"a", "b", none, none⟩, ⟨"c", "d", none, none⟩], ["f", "g"], "whatsapp", none⟩
    ⟨2, [⟨"c", "d", none, none⟩, ⟨"a", "b", none, none⟩], ["g", "f"], "whatsapp", none⟩
    5 "r" rfl rfl rfl (by decide) (by decide) (by decide)

/-- Claim C3: with no SentAlertRecord for the date and a normally-behaving,
read-after-write-consistent store, two successive sendDailyAlert calls
dispatch exactly one notification and leave exactly one
(date, daily_processing) record: the first call sends and records, the second
observes the record and returns false without sending. -/
theorem claim_C3_alert_idempotent (st : AlertState) (dateStr : String) (n1 n2 : Int)
    (h : countDailyRecords st dateStr = 0) :
    (sendDailyAlert st dateStr n1).2 = true ∧
    (sendDailyAlert (sendDailyAlert st dateStr n1).1 dateStr n2).2 = false ∧
    (sendDailyAlert (sendDailyAlert st dateStr n1).1 dateStr n2).1.emailsSent =
      st.emailsSent + 1 ∧
    countDailyRecords (sendDailyAlert (sendDailyAlert st dateStr n1).1 dateStr n2).1
      dateStr = 1 := by
  unfold countDailyRecords at h
  have hc1 : _checkAlertSent st.sentAlerts dateStr = false := checkAlertSent_false _ _ h
  have hkey : matchesDaily dateStr ("daily_" ++ dateStr,
      (⟨dateStr, DAILY_PROCESSING, n1⟩ : SentAlertRecord)) = true := by
    simp [matchesDaily]
  have hcount1 :
      ((_recordAlertSent st.sentAlerts dateStr n1).filter (matchesDaily dateStr)).length
        = 1 := setDoc_filter_one _ _ _ _ hkey h
  have hc2 : _checkAlertSent (_recordAlertSent st.sentAlerts dateStr n1) dateStr
      = true := by
    obtain ⟨a, ha⟩ := List.length_eq_one.mp hcount1
    have hmem : a ∈ (_recordAlertSent st.sentAlerts dateStr n1).filter
        (matchesDaily dateStr) := by
      rw [ha]
      exact List.mem_singleton_self a
    obtain ⟨hma, hpa⟩ := List.mem_filter.mp hmem
    exact List.any_eq_true.mpr ⟨a, hma, hpa⟩
  simp only [sendDailyAlert, hc1, Bool.false_eq_true, if_false, hc2, if_true]
  exact ⟨trivial, trivial, trivial, hcount1⟩

/-- Claim C3 witness: the idempotent double-send at a concrete empty store. -/
theorem claim_C3_alert_idempotent_witness :
    (sendDailyAlert ⟨[], 0⟩ "2024-05-06" 1).2 = true ∧
    (sendDailyAlert (sendDailyAlert ⟨[], 0⟩ "2024-05-06" 1).1 "2024-05-06" 2).2 = false ∧
    (sendDailyAlert (sendDailyAlert ⟨[], 0⟩ "2024-05-06" 1).1 "2024-05-06" 2).1.emailsSent
      = (⟨[], 0⟩ : AlertState).emailsSent + 1 ∧
    countDailyRecords
      (sendDailyAlert (sendDailyAlert ⟨[], 0⟩ "2024-05-06" 1).1 "2024-05-06" 2).1
      "2024-05-06" = 1 :=
  claim_C3_alert_idempotent ⟨[], 0⟩ "2024-05-06" 1 2 (by decide)

/-- Claim C4 (as written, refuted): a layout that matches but yields an
invalid calendar date does not fall through — extractDateTime returns null
for the whole line even though a later layout (here the DD/MM/YY one, and
also the bracketed one) would produce a valid timestamp, as the claim's
fall-through variant shows. -/
theorem claim_C4_counterexample :
    extractDateTime ("99/99/9999, 10:30 [01/02/23 10:30:45]".data) = none ∧
    extractDateTimeSpec ("99/99/9999, 10:30 [01/02/23 10:30:45]".data) =
      some ⟨2023, 2, 1, 10, 30⟩ := by
  constructor
  · decide
  · decide

/-- Claim C4 (amended): the extraction loop falls through to the next layout
only when a layout does not match at all; as soon as a layout matches, its
processed result is returned — an invalid calendar date therefore yields
null for the line immediately, without consulting the remaining layouts (and
no line ever fails hard: the result is always a date or null). -/
theorem claim_C4_first_match_decides (ps : List RE) (text : List Char) (p : RE) :
    (∀ m, execFrom p text = some m → processDateMatch m = none →
      extractDateTimeAux (p :: ps) text = none) ∧
    (execFrom p text = none →
      extractDateTimeAux (p :: ps) text = extractDateTimeAux ps text) := by
  constructor
  · intro m hm hinvalid
    simp [extractDateTimeAux, hm, hinvalid]
  · intro hnone
    simp [extractDateTimeAux, hnone]

/-- Claim C4 witness: the short-circuit on an invalid 31st of February, and
the fall-through on a non-matching layout. -/
theorem claim_C4_first_match_decides_witness :
    extractDateTimeAux (dateTimePattern0 :: [dateTimePattern1, dateTimePattern2])
      ("31/02/2023, 10:30".data) = none ∧
    extractDateTimeAux (dateTimePattern2 :: []) ("sin fecha".data) =
      extractDateTimeAux [] ("sin fecha".data) :=
  ⟨(claim_C4_first_match_decides [dateTimePattern1, dateTimePattern2]
      ("31/02/2023, 10:30".data) dateTimePattern0).1
      ⟨"31/02/2023, 10:30".data,
       [(2, "10:30".data), (1, "31/02/2023".data)], []⟩
      (by decide) (by decide),
   (claim_C4_first_match_decides [] ("sin fecha".data) dateTimePattern2).2 (by decide)⟩

/-- Claim C5 (as written, refuted): shouldAlert does not require the date to
be at least one day in the past — any positive difference (here one hour)
triggers it — and the error path sets shouldAlert unconditionally, without
the alertable-weekday constraint (here on a Sunday, which is not in
ALERT_DAYS). -/
theorem claim_C5_counterexample :
    ((checkDailyProcessing .empty 0 3600000 5).shouldAlert = true ∧
      (3600000 : Int) - 0 < 86400000) ∧
    ((checkDailyProcessing .failure 0 0 0).shouldAlert = true ∧
      (0 : Nat) ∉ ALERT_DAYS) := by
  refine ⟨⟨?_, by norm_num⟩, rfl, by decide⟩
  decide

/-- Claim C5 (amended): on the non-error path, shouldAlert is true exactly
when the query found no record (unprocessed), the date's day-of-week is in
ALERT_DAYS, and the date is strictly earlier than now — by any positive
amount, not necessarily a full day; the error path reports shouldAlert
unconditionally. -/
theorem claim_C5_should_alert (q : LedgerQuery) (dateMs nowMs : Int) (dayOfWeek : Nat) :
    (checkDailyProcessing q dateMs nowMs dayOfWeek).shouldAlert = true ↔
      (q = .failure ∨
        (q = .empty ∧ dayOfWeek ∈ ALERT_DAYS ∧ dateMs < nowMs)) := by
  cases q with
  | empty =>
    show _shouldSendAlert dateMs nowMs dayOfWeek = true ↔ _
    unfold _shouldSendAlert
    rw [Bool.and_eq_true, decide_eq_true_eq]
    constructor
    · rintro ⟨hw, hlt⟩
      exact Or.inr ⟨rfl, by simpa using hw, by omega⟩
    · rintro (h | ⟨-, hw, hlt⟩)
      · exact LedgerQuery.noConfusion h
      · exact ⟨by simpa using hw, by omega⟩
  | found r => simp [checkDailyProcessing]
  | failure => simp [checkDailyProcessing]

/-- Claim C6 (as written, refuted): two candidates that differ in both the
vehicle token and the to-driver token can still collapse, because the
deduplication key is the hyphen-joined string: AB-X to Y and AB to X-Y share
the key, so only the first survives. -/
theorem claim_C6_counterexample :
    deduplicateTransfers [⟨"AB-X", "Y", none, none⟩, ⟨"AB", "X-Y", none, none⟩] =
      [⟨"AB-X", "Y", none, none⟩] ∧
    (⟨"AB-X", "Y", none, none⟩ : TransferRec).vehicleId ≠
      (⟨"AB", "X-Y", none, none⟩ : TransferRec).vehicleId ∧
    dedupKey ⟨"AB-X", "Y", none, none⟩ = dedupKey ⟨"AB", "X-Y", none, none⟩ := by
  refine ⟨by decide, by decide, by decide⟩

/-- Claim C6 (amended): deduplicateTransfers is order-preserving
first-seen-wins with respect to the string key
vehicleId-toDriver-(epochMillis or the no-date sentinel): the output is a
subsequence of the input, its keys are pairwise distinct, every input
element's key is represented, and each survivor is the earliest occurrence of
its key.  (Distinct (vehicle, toDriver, timestamp) triples may still share a
key when the tokens contain hyphens or when the timestamp is the falsy epoch
0.) -/
theorem claim_C6_dedupe_first_seen (l : List TransferRec) :
    (deduplicateTransfers l).Sublist l ∧
    ((deduplicateTransfers l).map dedupKey).Nodup ∧
    (∀ t ∈ l, ∃ u ∈ deduplicateTransfers l, dedupKey u = dedupKey t) ∧
    (∀ t ∈ deduplicateTransfers l,
      ∃ l₁ l₂, l = l₁ ++ t :: l₂ ∧ ∀ u ∈ l₁, dedupKey u ≠ dedupKey t) := by
  refine ⟨dedupAux_sublist l [], dedupAux_keys_nodup l [], ?_, dedupAux_first l []⟩
  intro t ht
  rcases dedupAux_coverage l [] t ht with h | h
  · simp at h
  · exact h

/-- Claim C6 witness: the first-seen-wins properties applied at a concrete
list with a duplicated key. -/
theorem claim_C6_dedupe_first_seen_witness :
    ∃ u ∈ deduplicateTransfers
        [⟨"A", "B", none, none⟩, ⟨"A", "B", none, some 7⟩, ⟨"A", "B", none, none⟩],
      dedupKey u = dedupKey (⟨"A", "B", none, none⟩ : TransferRec) :=
  (claim_C6_dedupe_first_seen
      [⟨"A", "B", none, none⟩, ⟨"A", "B", none, some 7⟩, ⟨"A", "B", none, none⟩]).2.2.1
    ⟨"A", "B", none, none⟩ (by decide)

/-- Claim C7: isValid equals "vehicle resolved and to-driver resolved" at
construction (enrichTransfers) and after any sequence of manual overrides,
and an override of the from-driver alone never changes isValid. -/
theorem claim_C7_isValid_invariant (vehicles : List Vehicle) (drivers : List Driver)
    (ts : List WhatsAppParser.TransferRec) (t : ReconciledTransfer)
    (ops : List (MatchType × String)) (fid : String)
    (ht : t ∈ enrichTransfers vehicles drivers ts) :
    validInvariant (applyOverrides vehicles drivers t ops) ∧
    (handleManualMatch vehicles drivers (applyOverrides vehicles drivers t ops)
        .fromDriver fid).isValid =
      (applyOverrides vehicles drivers t ops).isValid := by
  have henrich : ∀ x : WhatsAppParser.TransferRec,
      validInvariant (enrichTransfer vehicles drivers x) := by
    intro x
    rfl
  have hmanual : ∀ (u : ReconciledTransfer) (ty : MatchType) (sel : String),
      validInvariant (handleManualMatch vehicles drivers u ty sel) := by
    intro u ty sel
    cases ty <;> rfl
  have hstart : validInvariant t := by
    obtain ⟨x, _, hx⟩ := List.mem_map.mp ht
    rw [← hx]
    exact henrich x
  have hall : ∀ (rest : List (MatchType × String)) (u : ReconciledTransfer),
      validInvariant u → validInvariant (applyOverrides vehicles drivers u rest) := by
    intro rest
    induction rest with
    | nil => intro u hu; exact hu
    | cons op rest ih =>
      intro u _
      exact ih (handleManualMatch vehicles drivers u op.1 op.2) (hmanual u op.1 op.2)
  have happly : validInvariant (applyOverrides vehicles drivers t ops) :=
    hall ops t hstart
  refine ⟨happly, ?_⟩
  have : (handleManualMatch vehicles drivers (applyOverrides vehicles drivers t ops)
      .fromDriver fid).isValid =
      ((applyOverrides vehicles drivers t ops).vehicleMatch.isSome &&
       (applyOverrides vehicles drivers t ops).toDriverMatch.isSome) := rfl
  rw [this, ← happly]

/-- Claim C7 witness: the invariant at a concrete registry, transfer and
override sequence. -/
theorem claim_C7_isValid_invariant_witness :
    validInvariant (applyOverrides [⟨"v1", "ABC-123"⟩] [⟨"d1", "Juan Perez"⟩]
      (enrichTransfer [⟨"v1", "ABC-123"⟩] [⟨"d1", "Juan Perez"⟩]
        ⟨"ABC-123", "Juan Perez", none, none⟩)
      [(.fromDriver, "zzz"), (.vehicle, "v1")]) ∧
    (handleManualMatch [⟨"v1", "ABC-123"⟩] [⟨"d1", "Juan Perez"⟩]
        (applyOverrides [⟨"v1", "ABC-123"⟩] [⟨"d1", "Juan Perez"⟩]
          (enrichTransfer [⟨"v1", "ABC-123"⟩] [⟨"d1", "Juan Perez"⟩]
            ⟨"ABC-123", "Juan Perez", none, none⟩)
          [(.fromDriver, "zzz"), (.vehicle, "v1")]) .fromDriver "d1").isValid =
      (applyOverrides [⟨"v1", "ABC-123"⟩] [⟨"d1", "Juan Perez"⟩]
        (enrichTransfer [⟨"v1", "ABC-123"⟩] [⟨"d1", "Juan Perez"⟩]
          ⟨"ABC-123", "Juan Perez", none, none⟩)
        [(.fromDriver, "zzz"), (.vehicle, "v1")]).isValid :=
  claim_C7_isValid_invariant [⟨"v1", "ABC-123"⟩] [⟨"d1", "Juan Perez"⟩]
    [⟨"ABC-123", "Juan Perez", none, none⟩]
    (enrichTransfer [⟨"v1", "ABC-123"⟩] [⟨"d1", "Juan Perez"⟩]
      ⟨"ABC-123", "Juan Perez", none, none⟩)
    [(.fromDriver, "zzz"), (.vehicle, "v1")] "d1"
    (List.mem_map.mpr ⟨⟨"ABC-123", "Juan Perez", none, none⟩, List.mem_singleton_self _, rfl⟩)

/-- Claim C8: on the line "le paso el carro ABC-123 a Juan Perez" the pattern
extractor produces exactly one candidate over all six rules, from rule 0,
with vehicle token ABC-123, to-driver Juan Perez, and confidence 0.95 (≥ 0.9;
confidences are in hundredths here). -/
theorem claim_C8_single_candidate :
    findTransferPatterns ("le paso el carro ABC-123 a Juan Perez".data) =
      [⟨"ABC-123".data, none, "Juan Perez".data, 0, 95⟩] ∧
    ((findTransferPatterns ("le paso el carro ABC-123 a Juan Perez".data)).all
      (fun c => 90 ≤ c.confidence)) = true := by
  constructor
  · decide
  · decide

/-- Claim C9 (as written, refuted): cleanVehicleId does not restrict its
output to [A-Z0-9-]: the JS \w class keeps underscores and the \s class keeps
(collapsed) spaces, as the input "ab c" shows. -/
theorem claim_C9_counterexample :
    cleanVehicleId ("ab c".data) = "AB C".data ∧
    ' ' ∈ cleanVehicleId ("ab c".data) ∧
    ¬(('A' ≤ ' ' ∧ ' ' ≤ 'Z') ∨ ('0' ≤ ' ' ∧ ' ' ≤ '9') ∨ ' ' = '-') := by
  refine ⟨by decide, by decide, by decide⟩

/-- Claim C9 (amended): cleanVehicleId upper-cases and strips, but the kept
alphabet is [A-Z0-9_-] plus the single space (the JS classes \w and \s):
every output character is an upper-case letter, a digit, an underscore, a
hyphen, or a space — never a lower-case letter — and falsy (empty) input
yields the empty string rather than failing. -/
theorem claim_C9_char_classes :
    (∀ l : List Char, ∀ c ∈ cleanVehicleId l,
      ('A' ≤ c ∧ c ≤ 'Z') ∨ ('0' ≤ c ∧ c ≤ '9') ∨ c = '_' ∨ c = '-' ∨ c = ' ') ∧
    cleanVehicleId [] = [] :=
  ⟨cleanVehicleId_chars, rfl⟩

/-- Claim C9 witness: the character-class property at a concrete input and
output character. -/
theorem claim_C9_char_classes_witness :
    ('A' ≤ 'A' ∧ 'A' ≤ 'Z') ∨ ('0' ≤ 'A' ∧ 'A' ≤ '9') ∨ 'A' = '_' ∨ 'A' = '-' ∨ 'A' = ' ' :=
  claim_C9_char_classes.1 ("a_ b".data) 'A' (by decide)

/-- Claim C10: every digest the service produces — on the normal path and on
the fallback path alike — is exactly 10 lower-case hexadecimal digits (8 of
djb2 plus a 2-digit checksum), so isValidHash accepts it. -/
theorem claim_C10_digest_format (input : Option ProcessingData) (nowMs : Nat)
    (rnd : String) :
    isValidHash (generateDataHash input nowMs rnd) = true := by
  cases input with
  | none => exact calculateHash_valid _
  | some d => exact calculateHash_valid _

